import Mathlib

/-!
Verification of the BusinessGame economy core against its specification.

The Python source is shallowly embedded: machine floats are modelled by
exact rationals (ℚ), Python `round` by round-half-to-even (`pyRound`),
Python `int()` truncation by `pyTrunc`, and JSON dictionaries by
association lists.  Randomness (stock deltas, judge outcomes) is passed
in as explicit sequences.
-/

/-- Python `round(q)`: round half to even (banker's rounding). -/
def pyRound (q : ℚ) : ℤ :=
  if q - ⌊q⌋ < 1/2 then ⌊q⌋
  else if 1/2 < q - ⌊q⌋ then ⌊q⌋ + 1
  else if Even ⌊q⌋ then ⌊q⌋ else ⌊q⌋ + 1

/-- Python `round(q, n)`: round to `n` decimal places, half to even. -/
def pyRoundTo (n : ℕ) (q : ℚ) : ℚ := (pyRound (q * 10 ^ n) : ℚ) / 10 ^ n

/-- Python `int(q)`: truncation toward zero. -/
def pyTrunc (q : ℚ) : ℤ := if 0 ≤ q then ⌊q⌋ else -⌊-q⌋

theorem pyRound_intCast (z : ℤ) : pyRound (z : ℚ) = z := by
  unfold pyRound
  simp

theorem pyRound_ge_floor (q : ℚ) : ⌊q⌋ ≤ pyRound q := by
  unfold pyRound
  split
  · omega
  split
  · omega
  split <;> omega

theorem pyRound_le_floor_add_one (q : ℚ) : pyRound q ≤ ⌊q⌋ + 1 := by
  unfold pyRound
  split
  · omega
  split
  · omega
  split <;> omega

theorem pyRound_eq_floor {q : ℚ} (h : q - ⌊q⌋ < 1/2) : pyRound q = ⌊q⌋ := by
  unfold pyRound
  rw [if_pos h]

theorem pyRound_mono {x y : ℚ} (h : x ≤ y) : pyRound x ≤ pyRound y := by
  rcases lt_or_eq_of_le (Int.floor_mono h) with hlt | heq
  · have h1 := pyRound_le_floor_add_one x
    have h2 := pyRound_ge_floor y
    omega
  · rcases lt_trichotomy (y - ⌊y⌋) (1/2 : ℚ) with hy | hy | hy
    · have hx : x - ⌊x⌋ < 1/2 := by
        rw [heq]
        have : x - ⌊y⌋ ≤ y - ⌊y⌋ := by linarith
        linarith
      rw [pyRound_eq_floor hx, pyRound_eq_floor hy, heq]
    · rcases lt_trichotomy (x - ⌊x⌋) (1/2 : ℚ) with hx | hx | hx
      · rw [pyRound_eq_floor hx, heq]
        exact pyRound_ge_floor y
      · have hxy : x = y := by
          have : x - ⌊x⌋ = y - ⌊y⌋ := by rw [hx, hy]
          rw [heq] at this
          linarith
        rw [hxy]
      · exfalso
        have : x - ⌊x⌋ ≤ y - ⌊y⌋ := by rw [heq]; linarith
        linarith
    · have hx2 := pyRound_le_floor_add_one x
      have hy2 : pyRound y = ⌊y⌋ + 1 := by
        unfold pyRound
        rw [if_neg (by linarith), if_pos hy]
      omega

/-- A rational that is an integer number of hundredths (what the game's
rating arithmetic produces: Python `round(x, 2)` values). -/
def isCenti (x : ℚ) : Prop := ∃ m : ℤ, x = (m : ℚ) / 100

theorem pyRoundTo_eq_self {n : ℕ} {x : ℚ} (h : ∃ m : ℤ, x * 10 ^ n = (m : ℚ)) :
    pyRoundTo n x = x := by
  obtain ⟨m, hm⟩ := h
  unfold pyRoundTo
  rw [hm, pyRound_intCast, ← hm]
  have hpow : (10 : ℚ) ^ n ≠ 0 := by positivity
  field_simp

theorem isCenti.roundTo2 {x : ℚ} (h : isCenti x) : pyRoundTo 2 x = x := by
  obtain ⟨m, hm⟩ := h
  apply pyRoundTo_eq_self
  refine ⟨m, ?_⟩
  rw [hm]
  ring

theorem isCenti.add {x y : ℚ} (hx : isCenti x) (hy : isCenti y) : isCenti (x + y) := by
  obtain ⟨m, hm⟩ := hx; obtain ⟨k, hk⟩ := hy
  exact ⟨m + k, by rw [hm, hk]; push_cast; ring⟩

theorem isCenti.sub {x y : ℚ} (hx : isCenti x) (hy : isCenti y) : isCenti (x - y) := by
  obtain ⟨m, hm⟩ := hx; obtain ⟨k, hk⟩ := hy
  exact ⟨m - k, by rw [hm, hk]; push_cast; ring⟩

theorem isCenti_max {x y : ℚ} (hx : isCenti x) (hy : isCenti y) : isCenti (max x y) := by
  rcases max_cases x y with ⟨h, _⟩ | ⟨h, _⟩ <;> rw [h] <;> assumption

/-! ## Battle round scaling (src/commands/compete.py, BattleView) -/

namespace Compete

/-- `BattleView.current_multiplier`: the rating-change multiplier, doubling
every 5 rounds: `2 ** ((max(1, round) - 1) // 5)`. -/
def current_multiplier (round : ℕ) : ℚ :=
  (2 : ℚ) ^ ((max 1 round - 1) / 5)

/-- `BattleView.current_delta`: `round(0.1 * current_multiplier(), 2)`. -/
def current_delta (round : ℕ) : ℚ :=
  pyRoundTo 2 ((1/10) * current_multiplier round)

theorem current_multiplier_eq (r : ℕ) (h : 1 ≤ r) :
    current_multiplier r = (2 : ℚ) ^ ((r - 1) / 5) := by
  unfold current_multiplier
  rw [max_eq_right h]

theorem tenth_mul_multiplier_centi (r : ℕ) :
    isCenti ((1/10) * current_multiplier r) :=
  ⟨10 * 2 ^ ((max 1 r - 1) / 5), by unfold current_multiplier; push_cast; ring⟩

theorem current_delta_eq (r : ℕ) :
    current_delta r = (1/10) * current_multiplier r := by
  unfold current_delta
  exact (tenth_mul_multiplier_centi r).roundTo2

theorem current_delta_pos (r : ℕ) : 0 < current_delta r := by
  rw [current_delta_eq]
  unfold current_multiplier
  positivity

theorem current_delta_centi (r : ℕ) : isCenti (current_delta r) := by
  rw [current_delta_eq]
  exact tenth_mul_multiplier_centi r

theorem double_delta_eq (r : ℕ) :
    pyRoundTo 2 (current_delta r * 2) = current_delta r * 2 := by
  obtain ⟨m, hm⟩ := current_delta_centi r
  apply pyRoundTo_eq_self
  exact ⟨2 * m, by rw [hm]; push_cast; ring⟩

theorem current_delta_ge (r : ℕ) (h : 21 ≤ r) : (8/5 : ℚ) ≤ current_delta r := by
  rw [current_delta_eq, current_multiplier_eq r (by omega)]
  have hk : 4 ≤ (r - 1) / 5 := by omega
  have h2 : (2:ℚ) ^ 4 ≤ 2 ^ ((r - 1) / 5) := pow_le_pow_right₀ (by norm_num) hk
  norm_num at h2 ⊢
  linarith

/-- Per-round judged outcome, abstracting the external AI-detector and the
judge/heuristic of `BattleView.judge`: both arguments flagged as AI, exactly
one flagged (the other player wins at double delta), or a judged winner. -/
inductive RoundOutcome
  | aiBoth | aiOnlyA | aiOnlyB | judgedA | judgedB
deriving DecidableEq, Repr

/-- The in-memory battle session state of `BattleView` (ratings, recorded
starting ratings, current round and termination flag). -/
structure BattleState where
  aRating : ℚ
  bRating : ℚ
  aStart : ℚ
  bStart : ℚ
  round : ℕ
  over : Bool
  winner : Option Bool
deriving DecidableEq, Repr

/-- The raw rating change of player A in one round of `BattleView.judge`:
winner gains the delta, loser loses it; an AI-flagged round uses the double
delta; a both-flagged round drops both ratings by the double delta. -/
def aRawUpdate (o : RoundOutcome) (r δ dδ : ℚ) : ℚ :=
  match o with
  | .aiBoth => r - dδ
  | .aiOnlyA => r - dδ
  | .aiOnlyB => r + dδ
  | .judgedA => r + δ
  | .judgedB => r - δ

/-- The raw rating change of player B in one round of `BattleView.judge`. -/
def bRawUpdate (o : RoundOutcome) (r δ dδ : ℚ) : ℚ :=
  match o with
  | .aiBoth => r - dδ
  | .aiOnlyA => r + dδ
  | .aiOnlyB => r - dδ
  | .judgedA => r - δ
  | .judgedB => r + δ

/-- One judged round of `BattleView.judge`: compute the per-round delta
(`current_delta`, doubled for AI flags), apply
`max(0.1, round(rating ± delta, 2))` to both ratings, then finalize if a
player's rating is at or below their starting rating minus 0.5 (A's
threshold is checked first), else advance to the next round. -/
def battleStep (s : BattleState) (o : RoundOutcome) : BattleState :=
  if s.over then s
  else
    let δ := current_delta s.round
    let dδ := pyRoundTo 2 (δ * 2)
    let a' := max (1/10) (pyRoundTo 2 (aRawUpdate o s.aRating δ dδ))
    let b' := max (1/10) (pyRoundTo 2 (bRawUpdate o s.bRating δ dδ))
    if a' ≤ s.aStart - 1/2 then
      { s with aRating := a', bRating := b', over := true, winner := some false }
    else if b' ≤ s.bStart - 1/2 then
      { s with aRating := a', bRating := b', over := true, winner := some true }
    else
      { s with aRating := a', bRating := b', round := s.round + 1 }

/-- Battle start: `PlayerSelect.callback` and `BattleView._start_pressed`
clamp the selected ratings and the recorded starting ratings to a minimum
of 0.1; the round counter starts at 1. -/
def initBattle (a b : ℚ) : BattleState :=
  ⟨max (1/10) a, max (1/10) b, max (1/10) a, max (1/10) b, 1, false, none⟩

/-- Iterate judged rounds with a given outcome sequence. -/
def runBattle (s : BattleState) (outs : ℕ → RoundOutcome) : ℕ → BattleState
  | 0 => s
  | n + 1 => battleStep (runBattle s outs n) (outs n)

theorem battleStep_absorbs {s : BattleState} (h : s.over = true) (o : RoundOutcome) :
    battleStep s o = s := by
  unfold battleStep
  rw [h]
  simp

/-- The rating persisted for each player by `_apply_battle_outcome`:
`max(0.1, float(rating))`. -/
def apply_battle_outcome_rating (r : ℚ) : ℚ := max (1/10) r

end Compete

namespace Minigame

/-- `SellingView._adjust_rating` (src/commands/minigame.py): the business
rating becomes `round(max(0.0, current + delta), 1)` and is persisted. -/
def adjust_rating (current delta : ℚ) : ℚ := pyRoundTo 1 (max 0 (current + delta))

end Minigame

namespace Compete

/-- Invariant maintained by a live battle that started from (already
0.1-clamped) ratings `a` and `b`: starting ratings are recorded, both
current ratings are hundredth-valued, at least 0.1, strictly above their
loss thresholds, and their sum never exceeds the starting sum. -/
def GoodState (a b : ℚ) (s : BattleState) : Prop :=
  s.aStart = a ∧ s.bStart = b ∧
  isCenti s.aRating ∧ isCenti s.bRating ∧
  1/10 ≤ s.aRating ∧ 1/10 ≤ s.bRating ∧
  a - 1/2 < s.aRating ∧ b - 1/2 < s.bRating ∧
  s.aRating + s.bRating ≤ a + b

theorem clamp_drop {x t d : ℚ} (hx : isCenti x) (hd : isCenti d) (ht : (1:ℚ)/10 ≤ t)
    (h : t < max (1/10) (pyRoundTo 2 (x - d))) :
    max (1/10) (pyRoundTo 2 (x - d)) = x - d ∧ t + d < x := by
  have hc : pyRoundTo 2 (x - d) = x - d := (hx.sub hd).roundTo2
  rw [hc] at h ⊢
  rcases le_or_lt (x - d) (1/10) with h2 | h2
  · rw [max_eq_left h2] at h
    linarith
  · rw [max_eq_right (le_of_lt h2)] at h ⊢
    exact ⟨rfl, by linarith⟩

theorem clamp_gain {x d : ℚ} (hx : isCenti x) (hd : isCenti d) (hx10 : (1:ℚ)/10 ≤ x)
    (hd0 : 0 ≤ d) :
    max (1/10) (pyRoundTo 2 (x + d)) = x + d := by
  rw [(hx.add hd).roundTo2]
  exact max_eq_right (by linarith)

theorem delta2_centi (r : ℕ) : isCenti (current_delta r * 2) := by
  obtain ⟨m, hm⟩ := current_delta_centi r
  exact ⟨2 * m, by rw [hm]; push_cast; ring⟩

/-- Case analysis for one judged round of a live battle with starting
ratings at least 0.6: either the round finalizes the battle, or the
invariant is preserved, the round counter advances, and (because some
rating dropped by the full per-round delta while both stayed strictly
above their thresholds) the per-round delta is below 1. -/
theorem battleStep_cases {a b : ℚ} {s : BattleState} (ha : 3/5 ≤ a) (hb : 3/5 ≤ b)
    (hs : GoodState a b s) (hover : s.over = false) (o : RoundOutcome) :
    (battleStep s o).over = true ∨
    (GoodState a b (battleStep s o) ∧ (battleStep s o).over = false ∧
     (battleStep s o).round = s.round + 1 ∧ current_delta s.round < 1) := by
  obtain ⟨hsa, hsb, hca, hcb, h10a, h10b, hta, htb, hsum⟩ := hs
  have hδc := current_delta_centi s.round
  have hδ0 : (0:ℚ) ≤ current_delta s.round := le_of_lt (current_delta_pos s.round)
  have hδ2c := delta2_centi s.round
  have hδ20 : (0:ℚ) ≤ current_delta s.round * 2 := by linarith
  have htb10 : (1:ℚ)/10 ≤ b - 1/2 := by linarith
  have hta10 : (1:ℚ)/10 ≤ a - 1/2 := by linarith
  unfold battleStep
  rw [hover]
  simp only [Bool.false_eq_true, if_false, double_delta_eq]
  cases o with
  | aiBoth =>
    simp only [aRawUpdate, bRawUpdate]
    split_ifs with h1 h2
    · left; rfl
    · left; rfl
    · right
      push_neg at h1 h2
      rw [hsa] at h1
      rw [hsb] at h2
      obtain ⟨hea, hia⟩ := clamp_drop hca hδ2c hta10 h1
      obtain ⟨heb, hib⟩ := clamp_drop hcb hδ2c htb10 h2
      refine ⟨⟨hsa, hsb, ?_, ?_, le_max_left _ _, le_max_left _ _, h1, h2, ?_⟩,
        rfl, rfl, ?_⟩
      · show isCenti (max (1/10) _)
        rw [hea]; exact hca.sub hδ2c
      · show isCenti (max (1/10) _)
        rw [heb]; exact hcb.sub hδ2c
      · show max (1/10) _ + max (1/10) _ ≤ a + b
        rw [hea, heb]; linarith
      · linarith
  | aiOnlyA =>
    simp only [aRawUpdate, bRawUpdate]
    split_ifs with h1 h2
    · left; rfl
    · left; rfl
    · right
      push_neg at h1 h2
      rw [hsa] at h1
      rw [hsb] at h2
      obtain ⟨hea, hia⟩ := clamp_drop hca hδ2c hta10 h1
      have heb := clamp_gain hcb hδ2c h10b hδ20
      refine ⟨⟨hsa, hsb, ?_, ?_, le_max_left _ _, le_max_left _ _, h1, h2, ?_⟩,
        rfl, rfl, ?_⟩
      · show isCenti (max (1/10) _)
        rw [hea]; exact hca.sub hδ2c
      · show isCenti (max (1/10) _)
        rw [heb]; exact hcb.add hδ2c
      · show max (1/10) _ + max (1/10) _ ≤ a + b
        rw [hea, heb]; linarith
      · linarith
  | aiOnlyB =>
    simp only [aRawUpdate, bRawUpdate]
    split_ifs with h1 h2
    · left; rfl
    · left; rfl
    · right
      push_neg at h1 h2
      rw [hsa] at h1
      rw [hsb] at h2
      obtain ⟨heb, hib⟩ := clamp_drop hcb hδ2c htb10 h2
      have hea := clamp_gain hca hδ2c h10a hδ20
      refine ⟨⟨hsa, hsb, ?_, ?_, le_max_left _ _, le_max_left _ _, h1, h2, ?_⟩,
        rfl, rfl, ?_⟩
      · show isCenti (max (1/10) _)
        rw [hea]; exact hca.add hδ2c
      · show isCenti (max (1/10) _)
        rw [heb]; exact hcb.sub hδ2c
      · show max (1/10) _ + max (1/10) _ ≤ a + b
        rw [hea, heb]; linarith
      · linarith
  | judgedA =>
    simp only [aRawUpdate, bRawUpdate]
    split_ifs with h1 h2
    · left; rfl
    · left; rfl
    · right
      push_neg at h1 h2
      rw [hsa] at h1
      rw [hsb] at h2
      obtain ⟨heb, hib⟩ := clamp_drop hcb hδc htb10 h2
      have hea := clamp_gain hca hδc h10a hδ0
      refine ⟨⟨hsa, hsb, ?_, ?_, le_max_left _ _, le_max_left _ _, h1, h2, ?_⟩,
        rfl, rfl, ?_⟩
      · show isCenti (max (1/10) _)
        rw [hea]; exact hca.add hδc
      · show isCenti (max (1/10) _)
        rw [heb]; exact hcb.sub hδc
      · show max (1/10) _ + max (1/10) _ ≤ a + b
        rw [hea, heb]; linarith
      · linarith
  | judgedB =>
    simp only [aRawUpdate, bRawUpdate]
    split_ifs with h1 h2
    · left; rfl
    · left; rfl
    · right
      push_neg at h1 h2
      rw [hsa] at h1
      rw [hsb] at h2
      obtain ⟨hea, hia⟩ := clamp_drop hca hδc hta10 h1
      have heb := clamp_gain hcb hδc h10b hδ0
      refine ⟨⟨hsa, hsb, ?_, ?_, le_max_left _ _, le_max_left _ _, h1, h2, ?_⟩,
        rfl, rfl, ?_⟩
      · show isCenti (max (1/10) _)
        rw [hea]; exact hca.sub hδc
      · show isCenti (max (1/10) _)
        rw [heb]; exact hcb.add hδc
      · show max (1/10) _ + max (1/10) _ ≤ a + b
        rw [hea, heb]; linarith
      · linarith

/-- A battle session from which no sequence of judged rounds ever reaches
the finalized state. -/
def battleNeverFinalizes (s : BattleState) : Prop :=
  ∀ (outs : ℕ → RoundOutcome) (n : ℕ), (runBattle s outs n).over = false

theorem battleStep_low {s : BattleState} (h1 : s.over = false)
    (h2 : s.aStart = 1/10) (h3 : s.bStart = 1/10) (o : RoundOutcome) :
    (battleStep s o).over = false ∧ (battleStep s o).aStart = 1/10 ∧
    (battleStep s o).bStart = 1/10 := by
  unfold battleStep
  rw [h1]
  simp only [Bool.false_eq_true, if_false]
  rw [h2, h3]
  have hno : ∀ x : ℚ, ¬ (max (1/10) x ≤ 1/10 - 1/2) := by
    intro x h
    have := le_max_left (1/10 : ℚ) x
    linarith
  rw [if_neg (hno _), if_neg (hno _)]
  exact ⟨rfl, rfl, rfl⟩

end Compete

/-- C7 (corrected): for every round `r ≥ 1` the rating-delta magnitude is
`0.1 × multiplier(r)` with `multiplier(r) = 2^⌊(r−1)/5⌋`; the multiplier
doubles every 5 rounds, but the blocks are rounds 1–5 ×1, 6–10 ×2, and
11–15 ×4 (not 1–4 / 5–9 / 10–14 as claimed). -/
theorem C7_theorem (r : ℕ) (h : 1 ≤ r) :
    Compete.current_delta r = (1/10) * 2 ^ ((r - 1) / 5) ∧
    Compete.current_multiplier r = 2 ^ ((r - 1) / 5) ∧
    (r ≤ 5 → Compete.current_multiplier r = 1) ∧
    (6 ≤ r → r ≤ 10 → Compete.current_multiplier r = 2) ∧
    (11 ≤ r → r ≤ 15 → Compete.current_multiplier r = 4) := by
  have hm := Compete.current_multiplier_eq r h
  refine ⟨?_, hm, ?_, ?_, ?_⟩
  · rw [Compete.current_delta_eq, hm]
  · intro h5
    rw [hm, show (r - 1) / 5 = 0 by omega]
    norm_num
  · intro h6 h10
    rw [hm, show (r - 1) / 5 = 1 by omega]
    norm_num
  · intro h11 h15
    rw [hm, show (r - 1) / 5 = 2 by omega]
    norm_num

/-- Witness for C7_theorem at round 7. -/
theorem C7_witness :
    1 ≤ 7 ∧
    (Compete.current_delta 7 = (1/10) * 2 ^ ((7 - 1) / 5) ∧
     Compete.current_multiplier 7 = 2 ^ ((7 - 1) / 5) ∧
     (7 ≤ 5 → Compete.current_multiplier 7 = 1) ∧
     (6 ≤ 7 → 7 ≤ 10 → Compete.current_multiplier 7 = 2) ∧
     (11 ≤ 7 → 7 ≤ 15 → Compete.current_multiplier 7 = 4)) :=
  ⟨by norm_num, C7_theorem 7 (by norm_num)⟩

/-- C7 counterexample: round 5 has multiplier ×1, not the ×2 the claim's
"rounds 5–9 have ×2" range asserts. -/
theorem C7_counterexample :
    Compete.current_multiplier 5 = 1 ∧ (1 : ℚ) ≠ 2 := by
  constructor
  · show (2:ℚ) ^ ((max 1 5 - 1) / 5) = 1
    norm_num
  · norm_num

/-- C9 (amended): a rating persisted by a battle outcome
(`_apply_battle_outcome`) never drops below 0.1, and a rating persisted by
a minigame adjustment (`SellingView._adjust_rating`) never drops below 0 —
the minigame floor is 0.0, not a positive minimum. -/
theorem C9_theorem (r δ : ℚ) :
    1/10 ≤ Compete.apply_battle_outcome_rating r ∧ 0 ≤ Minigame.adjust_rating r δ := by
  constructor
  · exact le_max_left _ _
  · unfold Minigame.adjust_rating pyRoundTo
    have h1 : pyRound 0 ≤ pyRound (max 0 (r + δ) * 10 ^ 1) := pyRound_mono (by positivity)
    have h2 : pyRound (0 : ℚ) = 0 := by
      have := pyRound_intCast 0
      simpa using this
    apply div_nonneg
    · exact_mod_cast h2 ▸ h1
    · positivity

/-- C9 counterexample: a business at rating 0.1 that fails one minigame
pitch is persisted at rating 0, which is below every positive floor (in
particular below the battle floor 0.1). -/
theorem C9_counterexample :
    Minigame.adjust_rating (1/10) (-(1/10)) = 0 ∧ (0 : ℚ) < 1/10 := by
  constructor
  · show pyRoundTo 1 (max 0 ((1:ℚ)/10 + -(1/10))) = 0
    norm_num [pyRoundTo, pyRound]
  · norm_num

/-- C6 (amended): if both starting ratings are at least 0.6 (so each loss
threshold `start − 0.5` sits at or above the 0.1 rating floor) and are
hundredth-valued, every sequence of judged-round outcomes finalizes the
battle within 21 rounds: each surviving round forces some rating to drop
by the full per-round delta while the rating sum never grows, which is
impossible once the delta doubles past 1. A player loses as soon as their
rating falls to or below their own starting rating minus 0.5. -/
theorem C6_theorem (a b : ℚ) (outs : ℕ → Compete.RoundOutcome)
    (ha : 3/5 ≤ a) (hb : 3/5 ≤ b) (hca : isCenti a) (hcb : isCenti b) :
    (Compete.runBattle (Compete.initBattle a b) outs 21).over = true := by
  have h110a : (1:ℚ)/10 ≤ a := by linarith
  have h110b : (1:ℚ)/10 ≤ b := by linarith
  have hinit : Compete.initBattle a b = ⟨a, b, a, b, 1, false, none⟩ := by
    unfold Compete.initBattle
    rw [max_eq_right h110a, max_eq_right h110b]
  have key : ∀ n, (Compete.runBattle (Compete.initBattle a b) outs n).over = true ∨
      (Compete.GoodState a b (Compete.runBattle (Compete.initBattle a b) outs n) ∧
       (Compete.runBattle (Compete.initBattle a b) outs n).over = false ∧
       (Compete.runBattle (Compete.initBattle a b) outs n).round = n + 1) := by
    intro n
    induction n with
    | zero =>
      right
      show Compete.GoodState a b (Compete.initBattle a b) ∧
        (Compete.initBattle a b).over = false ∧ (Compete.initBattle a b).round = 0 + 1
      rw [hinit]
      exact ⟨⟨rfl, rfl, hca, hcb, h110a, h110b, by linarith, by linarith, le_refl _⟩,
        rfl, rfl⟩
    | succ n ih =>
      rcases ih with h | ⟨hg, ho, hr⟩
      · left
        show (Compete.battleStep _ _).over = true
        rw [Compete.battleStep_absorbs h]
        exact h
      · rcases Compete.battleStep_cases ha hb hg ho (outs n) with h2 | ⟨hg2, ho2, hr2, _⟩
        · left; exact h2
        · right
          refine ⟨hg2, ho2, ?_⟩
          show (Compete.battleStep (Compete.runBattle (Compete.initBattle a b) outs n)
            (outs n)).round = n + 1 + 1
          rw [hr2, hr]
  rcases key 20 with h | ⟨hg, ho, hr⟩
  · show (Compete.battleStep _ _).over = true
    rw [Compete.battleStep_absorbs h]
    exact h
  · rcases Compete.battleStep_cases ha hb hg ho (outs 20) with h2 | ⟨_, _, _, hlt⟩
    · exact h2
    · exfalso
      have h21 := Compete.current_delta_ge _ (le_of_eq hr.symm)
      linarith

namespace Compete

theorem init_floor_eq :
    initBattle (1/10) (1/10) =
      (⟨1/10, 1/10, 1/10, 1/10, 1, false, none⟩ : BattleState) := by
  unfold initBattle
  rw [max_self]

theorem current_delta_one : current_delta 1 = 1/10 := by
  rw [current_delta_eq]
  unfold current_multiplier
  norm_num

/-- At the rating floor, a both-flagged-AI round leaves both ratings at 0.1
and only advances the round counter. -/
theorem floor_step_eq :
    battleStep ⟨1/10, 1/10, 1/10, 1/10, 1, false, none⟩ RoundOutcome.aiBoth =
      (⟨1/10, 1/10, 1/10, 1/10, 2, false, none⟩ : BattleState) := by
  have e1 : (1:ℚ)/10 * 2 = 1/5 := by norm_num
  have e2 : pyRoundTo 2 ((1:ℚ)/5) = 1/5 := pyRoundTo_eq_self ⟨20, by norm_num⟩
  have e3 : (1:ℚ)/10 - 1/5 = -((1:ℚ)/10) := by norm_num
  have e4 : pyRoundTo 2 (-((1:ℚ)/10)) = -((1:ℚ)/10) :=
    pyRoundTo_eq_self ⟨-10, by norm_num⟩
  have e5 : max ((1:ℚ)/10) (-((1:ℚ)/10)) = 1/10 := max_eq_left (by norm_num)
  unfold battleStep
  simp only [aRawUpdate, bRawUpdate, current_delta_one, e1, e2, e3, e4, e5]
  norm_num

end Compete

/-- Witness for C6_theorem: both players start at rating 1.0 and player A
wins every judged round; the battle is finalized within 21 rounds. -/
theorem C6_witness :
    (3/5 : ℚ) ≤ 1 ∧ isCenti (1 : ℚ) ∧
    (Compete.runBattle (Compete.initBattle 1 1)
      (fun _ => Compete.RoundOutcome.judgedA) 21).over = true :=
  ⟨by norm_num, ⟨100, by norm_num⟩,
    C6_theorem 1 1 _ (by norm_num) (by norm_num) ⟨100, by norm_num⟩ ⟨100, by norm_num⟩⟩

/-- C6 counterexample: a battle whose players both start at rating 0.1
(reachable, e.g. after repeated losses) never reaches the finalized state
under any outcome sequence — each loss threshold is 0.1 − 0.5 = −0.4,
strictly below the 0.1 rating floor — and a both-flagged-AI round at the
floor moves neither player's rating, refuting both the bounded-termination
and the minimum-movement parts of the claim. -/
theorem C6_counterexample :
    Compete.battleNeverFinalizes (Compete.initBattle (1/10) (1/10)) ∧
    (Compete.battleStep (Compete.initBattle (1/10) (1/10))
      Compete.RoundOutcome.aiBoth).aRating = (1/10 : ℚ) ∧
    (Compete.battleStep (Compete.initBattle (1/10) (1/10))
      Compete.RoundOutcome.aiBoth).bRating = (1/10 : ℚ) := by
  refine ⟨?_, ?_, ?_⟩
  · intro outs n
    have key : ∀ m,
        (Compete.runBattle (Compete.initBattle (1/10) (1/10)) outs m).over = false ∧
        (Compete.runBattle (Compete.initBattle (1/10) (1/10)) outs m).aStart = 1/10 ∧
        (Compete.runBattle (Compete.initBattle (1/10) (1/10)) outs m).bStart = 1/10 := by
      intro m
      induction m with
      | zero => exact ⟨rfl, max_self _, max_self _⟩
      | succ m ih => exact Compete.battleStep_low ih.1 ih.2.1 ih.2.2 (outs m)
    exact (key n).1
  · rw [Compete.init_floor_eq, Compete.floor_step_eq]
  · rw [Compete.init_floor_eq, Compete.floor_step_eq]

/-! ## Stock ticker (src/commands/stocks.py `_tick_if_needed` and
src/bot.py `_tick_stocks_if_needed`) -/

theorem pyRoundTo_nonneg {n : ℕ} {c : ℚ} (h : 0 ≤ c) : 0 ≤ pyRoundTo n c := by
  unfold pyRoundTo
  have h1 : pyRound 0 ≤ pyRound (c * 10 ^ n) := pyRound_mono (by positivity)
  have h2 : pyRound (0 : ℚ) = 0 := by
    have := pyRound_intCast 0
    simpa using this
  apply div_nonneg
  · exact_mod_cast h2 ▸ h1
  · positivity

theorem pyRoundTo_le {n : ℕ} {c b : ℚ} (h : c ≤ b) (hb : ∃ m : ℤ, b * 10 ^ n = (m : ℚ)) :
    pyRoundTo n c ≤ b := by
  obtain ⟨m, hm⟩ := hb
  unfold pyRoundTo
  have hpow : (0:ℚ) < 10 ^ n := by positivity
  have h1 : pyRound (c * 10 ^ n) ≤ pyRound (b * 10 ^ n) :=
    pyRound_mono (mul_le_mul_of_nonneg_right h (le_of_lt hpow))
  rw [hm, pyRound_intCast] at h1
  have hb' : b = (m : ℚ) / 10 ^ n := by
    field_simp
    linarith [hm]
  rw [hb']
  exact div_le_div_of_nonneg_right (by exact_mod_cast h1) (le_of_lt hpow)

/-- The global stock record `stocks.json`: `current_pct`, `last_tick`
(epoch seconds) and the `history` ring buffer of `(t, pct)` samples. -/
structure StockState where
  current_pct : ℚ
  last_tick : ℤ
  history : List (ℤ × ℚ)
deriving DecidableEq, Repr

/-- The per-step loop shared by both tickers: each step adds the next
sampled delta, clamps to `[0, hi]`, advances `last_tick` by exactly 3600
and appends a one-decimal history sample. -/
def tickSteps (hi : ℚ) (ds : ℕ → ℚ) : ℕ → ℚ × ℤ × List (ℤ × ℚ) → ℚ × ℤ × List (ℤ × ℚ)
  | 0, st => st
  | n + 1, (c, l, h) =>
      let c' := max 0 (min hi (c + ds 0))
      let l' := l + 3600
      tickSteps hi (fun i => ds (i + 1)) n (c', l', h ++ [(l', pyRoundTo 1 c')])

/-- `hist = hist[-48:]` when longer than 48 entries. -/
def trunc48 (h : List (ℤ × ℚ)) : List (ℤ × ℚ) :=
  if h.length > 48 then h.drop (h.length - 48) else h

/-- Shared body of the two tickers, parameterised by the per-step clamp
ceiling `hi` and by the sampled `random.uniform(-10, 10)` deltas `ds`:
repair a non-positive `last_tick`, no-op if less than 3600 s elapsed, else
apply `elapsed // 3600` steps and round the final percentage to one
decimal. -/
def tickIfNeededGen (hi : ℚ) (ds : ℕ → ℚ) (now : ℤ) (st : StockState) : StockState :=
  if st.last_tick ≤ 0 then
    { st with
      last_tick := now,
      history := if st.history = [] then [(now, st.current_pct)] else st.history }
  else if now - st.last_tick < 3600 then st
  else
    let steps := ((now - st.last_tick) / 3600).toNat
    let res := tickSteps hi ds steps (st.current_pct, st.last_tick, st.history)
    { current_pct := pyRoundTo 1 res.1, last_tick := res.2.1, history := trunc48 res.2.2 }

namespace Stocks

/-- `_tick_if_needed` in src/commands/stocks.py: its per-step update is
`curr = max(0.0, min(200.0, curr + change))` — the clamp ceiling is 200. -/
def tick_if_needed (ds : ℕ → ℚ) (now : ℤ) (st : StockState) : StockState :=
  tickIfNeededGen 200 ds now st

end Stocks

namespace Bot

/-- `_tick_stocks_if_needed` in src/bot.py: its per-step update is
`curr = max(0.0, min(100.0, curr + change))` — the clamp ceiling is 100. -/
def tick_stocks_if_needed (ds : ℕ → ℚ) (now : ℤ) (st : StockState) : StockState :=
  tickIfNeededGen 100 ds now st

end Bot

theorem tickSteps_bounds (hi : ℚ) (hhi : 0 ≤ hi) :
    ∀ (n : ℕ) (ds : ℕ → ℚ) (c : ℚ) (l : ℤ) (h : List (ℤ × ℚ)), 0 ≤ c → c ≤ hi →
      0 ≤ (tickSteps hi ds n (c, l, h)).1 ∧ (tickSteps hi ds n (c, l, h)).1 ≤ hi ∧
      (tickSteps hi ds n (c, l, h)).2.1 = l + 3600 * n := by
  intro n
  induction n with
  | zero =>
    intro ds c l h h0 h1
    exact ⟨h0, h1, by simp [tickSteps]⟩
  | succ n ih =>
    intro ds c l h h0 h1
    have hc0 : 0 ≤ max 0 (min hi (c + ds 0)) := le_max_left _ _
    have hc1 : max 0 (min hi (c + ds 0)) ≤ hi := max_le hhi (min_le_left _ _)
    obtain ⟨a1, a2, a3⟩ := ih (fun i => ds (i + 1)) (max 0 (min hi (c + ds 0)))
      (l + 3600) (h ++ [(l + 3600, pyRoundTo 1 (max 0 (min hi (c + ds 0))))]) hc0 hc1
    refine ⟨a1, a2, ?_⟩
    show (tickSteps hi (fun i => ds (i + 1)) n _).2.1 = l + 3600 * (n + 1)
    rw [a3]
    ring

theorem tickSteps_last (hi : ℚ) :
    ∀ (n : ℕ) (ds : ℕ → ℚ) (c : ℚ) (l : ℤ) (h : List (ℤ × ℚ)),
      (tickSteps hi ds n (c, l, h)).2.1 = l + 3600 * n := by
  intro n
  induction n with
  | zero =>
    intro ds c l h
    simp [tickSteps]
  | succ n ih =>
    intro ds c l h
    show (tickSteps hi (fun i => ds (i + 1)) n _).2.1 = l + 3600 * (n + 1)
    rw [ih]
    ring

theorem tickGen_pct_bounds (hi : ℚ) (hhi : 0 ≤ hi) (hint : ∃ m : ℤ, hi * 10 = (m : ℚ))
    (ds : ℕ → ℚ) (now : ℤ) (st : StockState)
    (h0 : 0 ≤ st.current_pct) (h1 : st.current_pct ≤ hi) :
    0 ≤ (tickIfNeededGen hi ds now st).current_pct ∧
    (tickIfNeededGen hi ds now st).current_pct ≤ hi := by
  unfold tickIfNeededGen
  split_ifs with hA hH hB
  · exact ⟨h0, h1⟩
  · exact ⟨h0, h1⟩
  · exact ⟨h0, h1⟩
  · obtain ⟨b0, b1, _⟩ := tickSteps_bounds hi hhi ((now - st.last_tick) / 3600).toNat
      ds st.current_pct st.last_tick st.history h0 h1
    refine ⟨pyRoundTo_nonneg b0, pyRoundTo_le b1 ?_⟩
    obtain ⟨m, hm⟩ := hint
    exact ⟨m, by rw [pow_one]; exact hm⟩

theorem tickGen_last (hi : ℚ) (ds : ℕ → ℚ) (now : ℤ) (st : StockState)
    (hA : 0 < st.last_tick) (hB : 3600 ≤ now - st.last_tick) :
    (tickIfNeededGen hi ds now st).last_tick =
      st.last_tick + 3600 * ((now - st.last_tick) / 3600) := by
  unfold tickIfNeededGen
  rw [if_neg (by omega), if_neg (by omega)]
  show (tickSteps hi ds _ _).2.1 = _
  rw [tickSteps_last]
  have hnn : 0 ≤ (now - st.last_tick) / 3600 :=
    Int.ediv_nonneg (by omega) (by norm_num)
  rw [Int.toNat_of_nonneg hnn]

/-- C8 (amended): each ticker step adds the sampled delta and clamps the
percentage, and `last_tick` advances by exactly 3600 seconds per applied
step — but the two tickers disagree on the clamp ceiling: the background
ticker in src/bot.py clamps each step to [0, 100], while the command-path
ticker in src/commands/stocks.py clamps to [0, 200], so in general
`current_pct` is only guaranteed to stay within [0, 200]. -/
theorem C8_theorem (ds : ℕ → ℚ) (now : ℤ) (st : StockState)
    (h0 : 0 ≤ st.current_pct) (h200 : st.current_pct ≤ 200)
    (h100 : st.current_pct ≤ 100) :
    (0 ≤ (Stocks.tick_if_needed ds now st).current_pct ∧
     (Stocks.tick_if_needed ds now st).current_pct ≤ 200) ∧
    (0 ≤ (Bot.tick_stocks_if_needed ds now st).current_pct ∧
     (Bot.tick_stocks_if_needed ds now st).current_pct ≤ 100) ∧
    (0 < st.last_tick → 3600 ≤ now - st.last_tick →
      (Stocks.tick_if_needed ds now st).last_tick =
        st.last_tick + 3600 * ((now - st.last_tick) / 3600) ∧
      (Bot.tick_stocks_if_needed ds now st).last_tick =
        st.last_tick + 3600 * ((now - st.last_tick) / 3600)) := by
  refine ⟨?_, ?_, ?_⟩
  · exact tickGen_pct_bounds 200 (by norm_num) ⟨2000, by norm_num⟩ ds now st h0 h200
  · exact tickGen_pct_bounds 100 (by norm_num) ⟨1000, by norm_num⟩ ds now st h0 h100
  · intro hA hB
    exact ⟨tickGen_last 200 ds now st hA hB, tickGen_last 100 ds now st hA hB⟩

/-- Witness for C8_theorem at a concrete state (50%, fresh record). -/
theorem C8_witness :
    0 ≤ (⟨50, 0, []⟩ : StockState).current_pct ∧
    (⟨50, 0, []⟩ : StockState).current_pct ≤ 200 ∧
    (⟨50, 0, []⟩ : StockState).current_pct ≤ 100 ∧
    ((0 ≤ (Stocks.tick_if_needed (fun _ => 0) 0 ⟨50, 0, []⟩).current_pct ∧
      (Stocks.tick_if_needed (fun _ => 0) 0 ⟨50, 0, []⟩).current_pct ≤ 200) ∧
     (0 ≤ (Bot.tick_stocks_if_needed (fun _ => 0) 0 ⟨50, 0, []⟩).current_pct ∧
      (Bot.tick_stocks_if_needed (fun _ => 0) 0 ⟨50, 0, []⟩).current_pct ≤ 100) ∧
     (0 < (⟨50, 0, []⟩ : StockState).last_tick →
      3600 ≤ 0 - (⟨50, 0, []⟩ : StockState).last_tick →
      (Stocks.tick_if_needed (fun _ => 0) 0 ⟨50, 0, []⟩).last_tick =
        (⟨50, 0, []⟩ : StockState).last_tick +
          3600 * ((0 - (⟨50, 0, []⟩ : StockState).last_tick) / 3600) ∧
      (Bot.tick_stocks_if_needed (fun _ => 0) 0 ⟨50, 0, []⟩).last_tick =
        (⟨50, 0, []⟩ : StockState).last_tick +
          3600 * ((0 - (⟨50, 0, []⟩ : StockState).last_tick) / 3600))) :=
  ⟨by norm_num, by norm_num, by norm_num,
   C8_theorem (fun _ => 0) 0 ⟨50, 0, []⟩ (by norm_num) (by norm_num) (by norm_num)⟩

/-- C8 counterexample: one applied step of the stocks.py ticker from 95%
with a sampled delta of +10 leaves the stored percentage at 105, above
100 — the claimed clamp to [0, 100] does not hold on this path. -/
theorem C8_counterexample :
    (Stocks.tick_if_needed (fun _ => 10) 4600 ⟨95, 1000, []⟩).current_pct = 105 ∧
    ¬ ((Stocks.tick_if_needed (fun _ => 10) 4600 ⟨95, 1000, []⟩).current_pct ≤ 100) := by
  have e1 : max (0:ℚ) (min 200 (95 + 10)) = 105 := by
    rw [show (95:ℚ) + 10 = 105 by norm_num, min_eq_right (by norm_num),
      max_eq_right (by norm_num)]
  have e2 : pyRoundTo 1 (105:ℚ) = 105 := pyRoundTo_eq_self ⟨1050, by norm_num⟩
  have hsteps : (((4600:ℤ) - 1000) / 3600).toNat = 1 := by decide
  have hmain : (Stocks.tick_if_needed (fun _ => 10) 4600 ⟨95, 1000, []⟩).current_pct
      = 105 := by
    show (tickIfNeededGen 200 (fun _ => 10) 4600 ⟨95, 1000, []⟩).current_pct = 105
    unfold tickIfNeededGen
    rw [if_neg (by decide), if_neg (by decide)]
    show pyRoundTo 1
      (tickSteps 200 (fun _ => 10) (((4600:ℤ) - 1000) / 3600).toNat (95, 1000, [])).1 = 105
    rw [hsteps]
    show pyRoundTo 1 (max (0:ℚ) (min 200 (95 + 10))) = 105
    rw [e1, e2]
  exact ⟨hmain, by rw [hmain]; norm_num⟩

/-! ## Persistent data model (users.json, purchased_upgrades.json, market.json) -/

theorem pyTrunc_intCast (z : ℤ) : pyTrunc (z : ℚ) = z := by
  unfold pyTrunc
  split
  · exact Int.floor_intCast z
  · rw [← Int.cast_neg, Int.floor_intCast]
    omega

/-- An entry of a business's legacy `upgrades` list: either an embedded
`{id, name, boost_pct}` dict or a bare upgrade id resolved via the market. -/
inductive UpgradeRef
  | entry (id : String) (name : String) (boost_pct : ℚ)
  | ref (id : String)
deriving DecidableEq, Repr

/-- A business record occupying a slot in users.json. -/
structure Slot where
  name : String
  base_income_per_day : ℤ
  income_per_day : ℤ
  rating : ℚ
  created_at : ℤ
  last_collected_at : ℤ
  total_earned : ℤ
  wins : ℤ
  losses : ℤ
  products_sold : ℤ
  pending_collect : ℤ
  upgrades : List UpgradeRef
deriving DecidableEq, Repr

/-- A per-user account record of users.json. -/
structure Account where
  balance : ℤ
  slots : List (Option Slot)
  purchased_slots : ℕ
deriving DecidableEq, Repr

/-- users.json: user id → account. -/
abbrev Users := List (String × Account)

/-- A purchased-upgrade ledger entry `{id, name, boost_pct}`. -/
structure PurchasedUp where
  id : String
  name : String
  boost_pct : ℚ
deriving DecidableEq, Repr

/-- purchased_upgrades.json: user id → slot index → entries. -/
abbrev Purchases := List (String × List (ℕ × List PurchasedUp))

/-- A market listing of market.json. -/
structure MarketUp where
  id : String
  name : String
  creator_id : String
  seller_slot_index : ℤ
  boost_pct : ℚ
  price : ℤ
deriving DecidableEq, Repr

/-- `d.get(k)` on a JSON object modelled as an association list. -/
def alookup {κ α : Type} [BEq κ] (l : List (κ × α)) (k : κ) : Option α :=
  (l.find? (·.1 == k)).map (·.2)

/-- `d[k] = v` on a JSON object: replace the first binding or append. -/
def aset {κ α : Type} [BEq κ] (l : List (κ × α)) (k : κ) (v : α) : List (κ × α) :=
  match l with
  | [] => [(k, v)]
  | (k', v') :: t => if k' == k then (k', v) :: t else (k', v') :: aset t k v

/-- `purchases.get(owner, {}).get(slot_index, [])`. -/
def purchasesFor (purchases : Purchases) (owner : String) (idx : ℕ) : List PurchasedUp :=
  match alookup purchases owner with
  | none => []
  | some rec => match alookup rec idx with
    | none => []
    | some l => l

/-- Sum of `boost_pct` over purchased-upgrade ledger entries. -/
def ledgerBoostSum (ups : List PurchasedUp) : ℚ := (ups.map (·.boost_pct)).sum

/-- The `u_map = {str(u['id']): u}` comprehension keeps the last listing
with a given id, so a bare-id lookup resolves to the last match. -/
def marketFind (mk : List MarketUp) (id : String) : Option MarketUp :=
  mk.reverse.find? (·.id == id)

/-- Sum of boosts embedded in (or resolved for) the legacy `upgrades` list
stored on the business record; unresolvable ids contribute nothing. -/
def legacyBoostSum (slot : Slot) (mk : List MarketUp) : ℚ :=
  (slot.upgrades.map (fun u =>
    match u with
    | .entry _ _ b => b
    | .ref i =>
      match marketFind mk i with
      | some m => m.boost_pct
      | none => 0)).sum

/-- `int(slot.get('last_collected_at') or slot.get('created_at') or _now())`:
Python's `or` falls through falsy (zero) values. -/
def lastRef (slot : Slot) (now : ℤ) : ℤ :=
  if slot.last_collected_at ≠ 0 then slot.last_collected_at
  else if slot.created_at ≠ 0 then slot.created_at else now

namespace Passive

/-- `_total_boost_pct(slot, owner_id, slot_index)` in src/commands/passive.py:
when both context arguments are provided, the sum over the purchased-upgrades
ledger is returned unconditionally — even when no entries are recorded; the
legacy fallback (boosts embedded in `slot['upgrades']`, bare ids resolved
through the market) is reached only when the context is missing. -/
def total_boost_pct (purchases : Purchases) (mk : List MarketUp) (slot : Slot)
    (owner_id : Option String) (slot_index : Option ℕ) : ℚ :=
  match owner_id, slot_index with
  | some o, some i => ledgerBoostSum (purchasesFor purchases o i)
  | _, _ => legacyBoostSum slot mk

/-- `_effective_income_per_day` in src/commands/passive.py:
`max(0, round(income_per_day × rating × (1 + total_boost_pct/100)))`. -/
def effective_income_per_day (purchases : Purchases) (mk : List MarketUp) (slot : Slot)
    (owner_id : Option String) (slot_index : Option ℕ) : ℤ :=
  max 0 (pyRound ((slot.income_per_day : ℚ) * slot.rating *
    (1 + total_boost_pct purchases mk slot owner_id slot_index / 100)))

/-- `_calc_accrued_for_slot` in src/commands/passive.py:
`int(days × effective rate) + pending_collect`. -/
def calc_accrued_for_slot (purchases : Purchases) (mk : List MarketUp) (slot : Slot)
    (owner_id : Option String) (slot_index : Option ℕ) (now : ℤ) : ℤ :=
  let rate := effective_income_per_day purchases mk slot owner_id slot_index
  let elapsed := max 0 (now - lastRef slot now)
  pyTrunc ((elapsed : ℚ) / 86400 * rate) + slot.pending_collect

end Passive

namespace Collect

/-- `_calc_accrued_for_slot` in src/commands/collect.py:
`int(days × the stored income_per_day)` — no pending_collect credit, no
rating or upgrade scaling. -/
def calc_accrued_for_slot (slot : Slot) (now : ℤ) : ℤ :=
  let rate := slot.income_per_day
  let elapsed := max 0 (now - lastRef slot now)
  pyTrunc ((elapsed : ℚ) / 86400 * rate)

end Collect

namespace Income

/-- `_total_boost_pct` in src/commands/income.py: the context is mandatory
and the ledger sum is returned unconditionally; the legacy block after it
is unreachable absent file-system errors. -/
def total_boost_pct (purchases : Purchases) (owner : String) (idx : ℕ) : ℚ :=
  ledgerBoostSum (purchasesFor purchases owner idx)

end Income

namespace Stocks

/-- Per-slot work of `_apply_stock_to_all_users`: the stored income becomes
`max(0, round(base_income_per_day × factor))`. The second "refresh" branch
in the source re-compares the just-updated value and is a no-op. -/
def applySlot (factor : ℚ) (s : Slot) : Slot :=
  { s with income_per_day := max 0 (pyRound ((s.base_income_per_day : ℚ) * factor)) }

/-- Whether a slot's stored income differs from the recomputed one. -/
def slotWouldChange (factor : ℚ) (s : Slot) : Bool :=
  s.income_per_day != max 0 (pyRound ((s.base_income_per_day : ℚ) * factor))

/-- `_apply_stock_to_all_users(stock_pct)` in src/commands/stocks.py:
`factor = stock_pct / 100.0` (0 at 0%); rescale every non-empty slot of
every account from its stored base income; users.json is rewritten only
if some stored value actually changed (the returned flag). -/
def apply_stock_to_all_users (stock_pct : ℚ) (users : Users) : Users × Bool :=
  let factor := if stock_pct ≠ 0 then stock_pct / 100 else 0
  (users.map (fun p =>
     (p.1, { p.2 with slots := p.2.slots.map (Option.map (applySlot factor)) })),
   users.any (fun p => p.2.slots.any (fun os =>
     match os with
     | some s => slotWouldChange factor s
     | none => false)))

end Stocks

theorem map_eq_self_of {α : Type} {f : α → α} :
    ∀ l : List α, (∀ x ∈ l, f x = x) → l.map f = l := by
  intro l h
  induction l with
  | nil => rfl
  | cons x t ih =>
    rw [List.map_cons, h x (by simp), ih (fun y hy => h y (by simp [hy]))]

/-- C1 (amended): `_apply_stock_to_all_users(pct)` — run after a tick by
the /stocks command and its Refresh button, while the bot.py background
ticker never broadcasts — leaves every non-empty business slot with
`income_per_day = max(0, round(base_income_per_day × pct/100.0))` (factor
0 at 0%), not `round(base × pct/50.0)` as claimed; and users.json is
rewritten only if some stored value changed: when the change flag is
false the users document is unchanged. -/
theorem C1_theorem (pct : ℚ) (users : Users) :
    (∀ p ∈ (Stocks.apply_stock_to_all_users pct users).1, ∀ os ∈ p.2.slots,
      ∀ s : Slot, os = some s →
      s.income_per_day =
        max 0 (pyRound ((s.base_income_per_day : ℚ) *
          (if pct ≠ 0 then pct / 100 else 0)))) ∧
    ((Stocks.apply_stock_to_all_users pct users).2 = false →
      (Stocks.apply_stock_to_all_users pct users).1 = users) := by
  constructor
  · intro p hp os hos s hs
    unfold Stocks.apply_stock_to_all_users at hp
    simp only [List.mem_map] at hp
    obtain ⟨q, hq, hpq⟩ := hp
    rw [← hpq] at hos
    simp only [List.mem_map] at hos
    obtain ⟨os₀, hos₀, hmap⟩ := hos
    rw [hs] at hmap
    cases os₀ with
    | none => exact absurd hmap (by simp)
    | some s₀ =>
      have hs₀ : Stocks.applySlot (if pct ≠ 0 then pct / 100 else 0) s₀ = s := by
        simpa using hmap
      rw [← hs₀]
      rfl
  · intro hfalse
    unfold Stocks.apply_stock_to_all_users at hfalse ⊢
    simp only [List.any_eq_false] at hfalse
    apply map_eq_self_of
    intro p hp
    have h1 := hfalse p hp
    rw [Bool.not_eq_true, List.any_eq_false] at h1
    have h2 : ∀ os ∈ p.2.slots,
        Option.map (Stocks.applySlot (if pct ≠ 0 then pct / 100 else 0)) os = os := by
      intro os hos
      cases os with
      | none => rfl
      | some s =>
        have h3 := h1 (some s) hos
        rw [Bool.not_eq_true] at h3
        simp only [Stocks.slotWouldChange, bne_eq_false_iff_eq] at h3
        show some (Stocks.applySlot _ s) = some s
        unfold Stocks.applySlot
        rw [← h3]
    rw [map_eq_self_of p.2.slots h2]

theorem apply_stock_singleton (pct : ℚ) (uid : String) (bal : ℤ) (ps : ℕ) (s : Slot) :
    (Stocks.apply_stock_to_all_users pct [(uid, ⟨bal, [some s], ps⟩)]).1 =
      [(uid, ⟨bal, [some (Stocks.applySlot (if pct ≠ 0 then pct / 100 else 0) s)], ps⟩)] :=
  rfl

/-- Example slot before the 50% broadcast (stale stored income 40). -/
def c1slotPre : Slot := ⟨"b", 40, 40, 1, 0, 0, 0, 0, 0, 0, 0, []⟩

/-- The same slot after the 50% broadcast: income 40 × 0.5 = 20. -/
def c1slotPost : Slot := ⟨"b", 40, 20, 1, 0, 0, 0, 0, 0, 0, 0, []⟩

/-- Example users document with one account and one business. -/
def c1users : Users := [("u", ⟨0, [some c1slotPre], 0⟩)]

/-- Witness for C1_theorem on a one-account document at 50%. -/
theorem C1_witness :
    c1slotPost.income_per_day =
      max 0 (pyRound ((c1slotPost.base_income_per_day : ℚ) *
        (if (50 : ℚ) ≠ 0 then 50 / 100 else 0))) := by
  have happ : Stocks.applySlot (if (50 : ℚ) ≠ 0 then 50 / 100 else 0) c1slotPre
      = c1slotPost := by
    unfold Stocks.applySlot c1slotPre c1slotPost
    dsimp only
    rw [if_pos (by norm_num),
      show ((40 : ℤ) : ℚ) * (50 / 100) = ((20 : ℤ) : ℚ) by norm_num, pyRound_intCast,
      show max (0 : ℤ) 20 = 20 by decide]
  have hres : (Stocks.apply_stock_to_all_users 50 c1users).1 =
      [("u", ⟨0, [some c1slotPost], 0⟩)] := by
    unfold c1users
    rw [apply_stock_singleton, happ]
  exact (C1_theorem 50 c1users).1 ("u", ⟨0, [some c1slotPost], 0⟩)
    (by rw [hres]; exact List.mem_singleton.mpr rfl)
    (some c1slotPost) (List.mem_singleton.mpr rfl) c1slotPost rfl

/-- C1 counterexample: base income 30, stock at 50%. The code stores
`round(30 × 50/100) = 15`, but the claim demands
`round(30 × 50/50) = 30`. -/
theorem C1_counterexample :
    (Stocks.apply_stock_to_all_users 50
        [("u", ⟨0, [some ⟨"b", 30, 30, 1, 0, 0, 0, 0, 0, 0, 0, []⟩], 0⟩)]).1 =
      [("u", ⟨0, [some ⟨"b", 30, 15, 1, 0, 0, 0, 0, 0, 0, 0, []⟩], 0⟩)] ∧
    (15 : ℤ) ≠ pyRound ((30 : ℚ) * (50 / 50)) := by
  constructor
  · rw [apply_stock_singleton]
    have happ : Stocks.applySlot (if (50 : ℚ) ≠ 0 then 50 / 100 else 0)
        ⟨"b", 30, 30, 1, 0, 0, 0, 0, 0, 0, 0, []⟩
        = ⟨"b", 30, 15, 1, 0, 0, 0, 0, 0, 0, 0, []⟩ := by
      unfold Stocks.applySlot
      dsimp only
      rw [if_pos (by norm_num),
        show ((30 : ℤ) : ℚ) * (50 / 100) = ((15 : ℤ) : ℚ) by norm_num, pyRound_intCast,
        show max (0 : ℤ) 15 = 15 by decide]
    rw [happ]
  · rw [show (30 : ℚ) * (50 / 50) = ((30 : ℤ) : ℚ) by norm_num, pyRound_intCast]
    norm_num

theorem passive_total_boost_some (purchases : Purchases) (mk : List MarketUp)
    (slot : Slot) (o : String) (i : ℕ) :
    Passive.total_boost_pct purchases mk slot (some o) (some i) =
      ledgerBoostSum (purchasesFor purchases o i) := rfl

theorem passive_total_boost_none (purchases : Purchases) (mk : List MarketUp)
    (slot : Slot) :
    Passive.total_boost_pct purchases mk slot none none = legacyBoostSum slot mk := rfl

theorem ledgerBoostSum_nil : ledgerBoostSum [] = 0 := rfl

/-- C4 (amended): the two accrual implementations are not the same
function: collect.py's uses the raw stored `income_per_day` and ignores
`pending_collect`, while passive.py's uses the effective (rating- and
boost-scaled) income and adds `pending_collect`. They agree exactly when
rating is 1, no ledger entries exist for the slot, `pending_collect` is 0
and the stored income is non-negative. -/
theorem C4_theorem (purchases : Purchases) (mk : List MarketUp) (slot : Slot)
    (o : String) (i : ℕ) (now : ℤ)
    (h1 : slot.rating = 1) (h2 : slot.pending_collect = 0)
    (h3 : purchasesFor purchases o i = []) (h4 : 0 ≤ slot.income_per_day) :
    Passive.effective_income_per_day purchases mk slot (some o) (some i) =
      slot.income_per_day ∧
    Passive.calc_accrued_for_slot purchases mk slot (some o) (some i) now =
      Collect.calc_accrued_for_slot slot now := by
  have heff : Passive.effective_income_per_day purchases mk slot (some o) (some i) =
      slot.income_per_day := by
    unfold Passive.effective_income_per_day
    rw [passive_total_boost_some, h3, ledgerBoostSum_nil, h1,
      show (slot.income_per_day : ℚ) * 1 * (1 + 0 / 100) = ((slot.income_per_day : ℤ) : ℚ)
        by ring,
      pyRound_intCast]
    exact max_eq_right h4
  refine ⟨heff, ?_⟩
  unfold Passive.calc_accrued_for_slot Collect.calc_accrued_for_slot
  rw [heff, h2, add_zero]

/-- Business record used in the C4 witness: rating 1, no pending credit. -/
def c4wslot : Slot := ⟨"b", 10, 10, 1, 0, 100, 0, 0, 0, 0, 0, []⟩

/-- Witness for C4_theorem on a concrete slot one day after collection. -/
theorem C4_witness :
    c4wslot.rating = 1 ∧ c4wslot.pending_collect = 0 ∧
    purchasesFor [] "u" 0 = [] ∧ 0 ≤ c4wslot.income_per_day ∧
    (Passive.effective_income_per_day [] [] c4wslot (some "u") (some 0) =
       c4wslot.income_per_day ∧
     Passive.calc_accrued_for_slot [] [] c4wslot (some "u") (some 0) 86500 =
       Collect.calc_accrued_for_slot c4wslot 86500) :=
  ⟨rfl, rfl, rfl, by norm_num [c4wslot],
   C4_theorem [] [] c4wslot "u" 0 86500 rfl rfl rfl (by norm_num [c4wslot])⟩

/-- Business record refuting C4: pending_collect 7, otherwise neutral. -/
def c4slot : Slot := ⟨"b", 10, 10, 1, 0, 100, 0, 0, 0, 0, 7, []⟩

/-- C4 counterexample: one day after collection, collect.py computes 10
while passive.py computes 17 (the pending credit) for the same stored
slot at the same instant — the two implementations disagree. -/
theorem C4_counterexample :
    Collect.calc_accrued_for_slot c4slot 86500 = 10 ∧
    Passive.calc_accrued_for_slot [] [] c4slot (some "u") (some 0) 86500 = 17 ∧
    (10 : ℤ) ≠ 17 := by
  have hlast : lastRef c4slot 86500 = 100 := by
    unfold lastRef c4slot
    norm_num
  have hmax : max (0 : ℤ) (86500 - lastRef c4slot 86500) = 86400 := by
    rw [hlast]
    decide
  have heff : Passive.effective_income_per_day [] [] c4slot (some "u") (some 0) = 10 := by
    unfold Passive.effective_income_per_day
    rw [passive_total_boost_some]
    rw [show purchasesFor [] "u" 0 = [] from rfl, ledgerBoostSum_nil]
    rw [show c4slot.rating = 1 from rfl]
    rw [show (c4slot.income_per_day : ℚ) * 1 * (1 + 0 / 100) = ((10 : ℤ) : ℚ) by
      rw [show c4slot.income_per_day = 10 from rfl]; push_cast; ring]
    rw [pyRound_intCast]
    decide
  have hq : ((max (0 : ℤ) (86500 - lastRef c4slot 86500) : ℤ) : ℚ) / 86400 *
      ((10 : ℤ) : ℚ) = ((10 : ℤ) : ℚ) := by
    rw [hmax]
    push_cast
    norm_num
  refine ⟨?_, ?_, by norm_num⟩
  · unfold Collect.calc_accrued_for_slot
    rw [show c4slot.income_per_day = ((10 : ℤ) : ℤ) from rfl]
    show pyTrunc (((max (0 : ℤ) (86500 - lastRef c4slot 86500) : ℤ) : ℚ) / 86400 *
      ((10 : ℤ) : ℚ)) = 10
    rw [hq, pyTrunc_intCast]
  · unfold Passive.calc_accrued_for_slot
    rw [heff]
    show pyTrunc (((max (0 : ℤ) (86500 - lastRef c4slot 86500) : ℤ) : ℚ) / 86400 *
      ((10 : ℤ) : ℚ)) + c4slot.pending_collect = 17
    rw [hq, pyTrunc_intCast]
    decide

/-- C5 (amended): with owner and slot context, `_total_boost_pct` always
uses the purchased-upgrades ledger — including when no entries are
recorded, in which case it returns 0 rather than falling back to the
boosts embedded in the legacy `upgrades` list; the legacy fallback applies
only when the context is missing (passive.py) and income.py's version,
whose context is mandatory, always uses the ledger. -/
theorem C5_theorem (purchases : Purchases) (mk : List MarketUp) (slot : Slot)
    (o : String) (i : ℕ) (h : purchasesFor purchases o i = []) :
    Passive.total_boost_pct purchases mk slot (some o) (some i) = 0 ∧
    Income.total_boost_pct purchases o i = 0 ∧
    Passive.total_boost_pct purchases mk slot none none = legacyBoostSum slot mk := by
  refine ⟨?_, ?_, rfl⟩
  · rw [passive_total_boost_some, h, ledgerBoostSum_nil]
  · unfold Income.total_boost_pct
    rw [h, ledgerBoostSum_nil]

/-- Business record refuting C5: a legacy embedded upgrade of +7%, no
ledger entries. -/
def c5slot : Slot := ⟨"b", 10, 10, 1, 0, 0, 0, 0, 0, 0, 0, [.entry "1" "Up" 7]⟩

/-- Witness for C5_theorem on a slot with an empty ledger. -/
theorem C5_witness :
    purchasesFor [] "u" 0 = [] ∧
    (Passive.total_boost_pct [] [] c5slot (some "u") (some 0) = 0 ∧
     Income.total_boost_pct [] "u" 0 = 0 ∧
     Passive.total_boost_pct [] [] c5slot none none = legacyBoostSum c5slot []) :=
  ⟨rfl, C5_theorem [] [] c5slot "u" 0 rfl⟩

/-- C5 counterexample: a slot whose legacy `upgrades` list carries +7%
but whose ledger is empty: with context the code returns 0, while the
claim demands the legacy sum 7. -/
theorem C5_counterexample :
    Passive.total_boost_pct [] [] c5slot (some "u") (some 0) = 0 ∧
    legacyBoostSum c5slot [] = 7 ∧
    (0 : ℚ) ≠ 7 := by
  refine ⟨rfl, ?_, by norm_num⟩
  unfold legacyBoostSum c5slot
  norm_num

/-! ## Equity ledger (src/commands/stocks.py, buy-stake / sell-stake) -/

namespace Equity

/-- One investor entry `{investor_id, pct, paid}` of a business's equity
record in equity.json. -/
structure Entry where
  investor_id : String
  pct : ℚ
  paid : ℚ
deriving DecidableEq, Repr

/-- `sum(float(r['pct']) for r in rec)`. -/
def sumPct (rec : List Entry) : ℚ := (rec.map (·.pct)).sum

/-- The selling investor's total holding, summed over their entries. -/
def myPct (rec : List Entry) (investor : String) : ℚ :=
  ((rec.filter (·.investor_id == investor)).map (·.pct)).sum

/-- The merge loop of `PurchaseConfirmView._confirm`: accumulate `pct` and
`paid` into the first entry with the buyer's id, else append a new entry. -/
def recordBuy (rec : List Entry) (buyer : String) (pct cost : ℚ) : List Entry :=
  match rec with
  | [] => [⟨buyer, pct, cost⟩]
  | e :: t =>
    if e.investor_id == buyer then
      ⟨e.investor_id, e.pct + pct, e.paid + cost⟩ :: t
    else
      e :: recordBuy t buyer pct cost

/-- Reduce or pop the first matching entry; `new_pct = pct - sold`, and an
entry at or below the 1e-6 epsilon is removed. -/
def reduceFirst (rec : List Entry) (seller : String) (pct : ℚ) : List Entry :=
  match rec with
  | [] => []
  | e :: t =>
    if e.investor_id == seller then
      (if e.pct - pct ≤ 1/1000000 then t
       else ⟨e.investor_id, e.pct - pct, e.paid⟩ :: t)
    else
      e :: reduceFirst t seller pct

/-- `SellConfirmView._confirm`'s record update: the source walks the list
remembering the LAST matching index and pops or updates that entry;
reducing the first match of the reversed list and reversing back is the
same operation. -/
def recordSell (rec : List Entry) (seller : String) (pct : ℚ) : List Entry :=
  (reduceFirst rec.reverse seller pct).reverse

/-- The pieces of users.json and equity.json that a stake trade touches:
the user balances and the one business's equity record. -/
structure ExchangeState where
  balances : List (String × ℤ)
  record : List Entry
deriving DecidableEq, Repr

/-- `PurchaseConfirmView._confirm`: re-validate at commit time (both user
records exist, stake still available, buyer still funded) and then apply
every effect — debit the buyer, credit the owner (sequential dictionary
updates, so aliasing reads the debited balance), merge the equity entry —
or change nothing at all. -/
def buyCommit (st : ExchangeState) (ownerId buyerId : String) (pct : ℚ) (cost : ℤ) :
    ExchangeState :=
  match alookup st.balances ownerId, alookup st.balances buyerId with
  | some _, some buyerBal =>
    if sumPct st.record + pct > 100 then st
    else if buyerBal < cost then st
    else
      let bs1 := aset st.balances buyerId (buyerBal - cost)
      let bs2 :=
        match alookup bs1 ownerId with
        | some ob => aset bs1 ownerId (ob + cost)
        | none => bs1
      { balances := bs2, record := recordBuy st.record buyerId pct cost }
  | _, _ => st

/-- `SellConfirmView._confirm`: re-validate (both user records exist, the
seller still owns at least `pct - 1e-6` with a concrete target entry, the
owner can fund the buyback), then debit the owner, credit the seller and
reduce or remove the seller's entry — or change nothing at all. -/
def sellCommit (st : ExchangeState) (ownerId sellerId : String) (pct : ℚ)
    (payout : ℤ) : ExchangeState :=
  match alookup st.balances ownerId, alookup st.balances sellerId with
  | some ownerBal, some _ =>
    if myPct st.record sellerId < pct - 1/1000000 ∨
        ¬ (st.record.any (·.investor_id == sellerId) = true) then st
    else if ownerBal < payout then st
    else
      let bs1 := aset st.balances ownerId (ownerBal - payout)
      let bs2 :=
        match alookup bs1 sellerId with
        | some sb => aset bs1 sellerId (sb + payout)
        | none => bs1
      { balances := bs2, record := recordSell st.record sellerId pct }
  | _, _ => st

/-- A stake trade as committed by the confirm views. -/
inductive Op
  | buy (ownerId buyerId : String) (pct : ℚ) (cost : ℤ)
  | sell (ownerId sellerId : String) (pct : ℚ) (payout : ℤ)
deriving DecidableEq, Repr

def applyOp (st : ExchangeState) (op : Op) : ExchangeState :=
  match op with
  | .buy o b p c => buyCommit st o b p c
  | .sell o s p q => sellCommit st o s p q

def runOps (st : ExchangeState) (ops : List Op) : ExchangeState :=
  ops.foldl applyOp st

/-- The percentage constraint the Buy/Sell modals enforce before any
confirm view is constructed: `0 < pct ≤ 100`. -/
def ValidOp : Op → Prop
  | .buy _ _ p _ => 0 < p ∧ p ≤ 100
  | .sell _ _ p _ => 0 < p ∧ p ≤ 100

/-- Record invariant: all entries strictly positive and total at most 100. -/
def GoodRec (rec : List Entry) : Prop :=
  (∀ e ∈ rec, 0 < e.pct) ∧ sumPct rec ≤ 100

theorem sumPct_cons (e : Entry) (t : List Entry) :
    sumPct (e :: t) = e.pct + sumPct t := by
  unfold sumPct
  rw [List.map_cons, List.sum_cons]

theorem sumPct_recordBuy (rec : List Entry) (b : String) (p c : ℚ) :
    sumPct (recordBuy rec b p c) = sumPct rec + p := by
  induction rec with
  | nil =>
    unfold recordBuy sumPct
    simp
  | cons e t ih =>
    unfold recordBuy
    split
    · rw [sumPct_cons, sumPct_cons]
      ring
    · rw [sumPct_cons, ih, sumPct_cons]
      ring

theorem pos_recordBuy {rec : List Entry} {b : String} {p c : ℚ}
    (h : ∀ e ∈ rec, 0 < e.pct) (hp : 0 < p) :
    ∀ e ∈ recordBuy rec b p c, 0 < e.pct := by
  induction rec with
  | nil =>
    intro e he
    unfold recordBuy at he
    simp only [List.mem_singleton] at he
    rw [he]
    exact hp
  | cons e t ih =>
    intro x hx
    unfold recordBuy at hx
    split at hx
    · rcases List.mem_cons.mp hx with h1 | h1
      · rw [h1]
        have := h e (by simp)
        show (0:ℚ) < e.pct + p
        linarith
      · exact h x (by simp [h1])
    · rcases List.mem_cons.mp hx with h1 | h1
      · rw [h1]
        exact h e (by simp)
      · exact ih (fun y hy => h y (by simp [hy])) x h1

theorem reduceFirst_bounds {rec : List Entry} {s : String} {p : ℚ}
    (h : ∀ e ∈ rec, 0 < e.pct) (hp : 0 < p) :
    sumPct (reduceFirst rec s p) ≤ sumPct rec ∧
    ∀ e ∈ reduceFirst rec s p, 0 < e.pct := by
  induction rec with
  | nil => exact ⟨le_refl _, by intro e he; cases he⟩
  | cons e t ih =>
    have he := h e (by simp)
    have ht : ∀ x ∈ t, 0 < x.pct := fun y hy => h y (by simp [hy])
    obtain ⟨ih1, ih2⟩ := ih ht
    unfold reduceFirst
    split
    · split
      · constructor
        · rw [sumPct_cons]
          linarith
        · exact ht
      · constructor
        · rw [sumPct_cons, sumPct_cons]
          show e.pct - p + sumPct t ≤ e.pct + sumPct t
          linarith
        · intro x hx
          rcases List.mem_cons.mp hx with h1 | h1
          · rw [h1]
            show (0:ℚ) < e.pct - p
            rename_i hcond
            push_neg at hcond
            have : (0:ℚ) < 1/1000000 := by norm_num
            linarith
          · exact ht x h1
    · constructor
      · rw [sumPct_cons, sumPct_cons]
        linarith
      · intro x hx
        rcases List.mem_cons.mp hx with h1 | h1
        · rw [h1]; exact he
        · exact ih2 x h1

theorem sumPct_reverse (rec : List Entry) : sumPct rec.reverse = sumPct rec := by
  unfold sumPct
  rw [List.map_reverse, List.sum_reverse]

theorem recordSell_bounds {rec : List Entry} {s : String} {p : ℚ}
    (h : ∀ e ∈ rec, 0 < e.pct) (hp : 0 < p) :
    sumPct (recordSell rec s p) ≤ sumPct rec ∧
    ∀ e ∈ recordSell rec s p, 0 < e.pct := by
  have hrev : ∀ e ∈ rec.reverse, 0 < e.pct := by
    intro e he
    exact h e (List.mem_reverse.mp he)
  obtain ⟨h1, h2⟩ := reduceFirst_bounds hrev hp
  constructor
  · unfold recordSell
    rw [sumPct_reverse]
    rw [sumPct_reverse] at h1
    exact h1
  · intro e he
    exact h2 e (List.mem_reverse.mp he)

theorem applyOp_preserves {st : ExchangeState} {op : Op} (hv : ValidOp op)
    (h : GoodRec st.record) : GoodRec (applyOp st op).record := by
  obtain ⟨hpos, hsum⟩ := h
  cases op with
  | buy o b p c =>
    have hp : 0 < p := hv.1
    show GoodRec (buyCommit st o b p c).record
    unfold buyCommit
    split
    · split_ifs with h1 h2
      · exact ⟨hpos, hsum⟩
      · exact ⟨hpos, hsum⟩
      · push_neg at h1
        refine ⟨pos_recordBuy hpos hp, ?_⟩
        show sumPct (recordBuy st.record b p c) ≤ 100
        rw [sumPct_recordBuy]
        exact h1
    · exact ⟨hpos, hsum⟩
  | sell o s p q =>
    have hp : 0 < p := hv.1
    show GoodRec (sellCommit st o s p q).record
    unfold sellCommit
    split
    · split_ifs with h1 h2
      · exact ⟨hpos, hsum⟩
      · exact ⟨hpos, hsum⟩
      · obtain ⟨hb1, hb2⟩ := recordSell_bounds hpos hp
        exact ⟨hb2, le_trans hb1 hsum⟩
    · exact ⟨hpos, hsum⟩

theorem runOps_goodRec (st : ExchangeState) (ops : List Op)
    (hv : ∀ op ∈ ops, ValidOp op) (h : GoodRec st.record) :
    GoodRec (runOps st ops).record := by
  induction ops generalizing st with
  | nil => exact h
  | cons op t ih =>
    show GoodRec (runOps (applyOp st op) t).record
    exact ih (applyOp st op)
      (fun x hx => hv x (by simp [hx]))
      (applyOp_preserves (hv op (by simp)) h)

end Equity

/-- C2 (confirmed): starting from an empty equity record, after any
sequence of buy-stake and sell-stake commits (each with the
modal-validated percentage in (0, 100]) the total staked percentage is at
most 100; and a repeat purchase by an investor who already holds a stake
accumulates into that entry — the investor-id list is unchanged and the
total grows by exactly the purchased percentage — rather than appending a
duplicate entry. -/
theorem C2_theorem (bal : List (String × ℤ)) (ops : List Equity.Op)
    (hv : ∀ op ∈ ops, Equity.ValidOp op) :
    Equity.sumPct (Equity.runOps ⟨bal, []⟩ ops).record ≤ 100 ∧
    (∀ (rec : List Equity.Entry) (buyer : String) (pct cost : ℚ),
      buyer ∈ rec.map (·.investor_id) →
      (Equity.recordBuy rec buyer pct cost).map (·.investor_id) =
        rec.map (·.investor_id) ∧
      Equity.sumPct (Equity.recordBuy rec buyer pct cost) =
        Equity.sumPct rec + pct) := by
  constructor
  · exact (Equity.runOps_goodRec ⟨bal, []⟩ ops hv
      ⟨(by intro e he; cases he), (by norm_num [Equity.sumPct])⟩).2
  · intro rec buyer pct cost hmem
    induction rec with
    | nil => cases hmem
    | cons e t ih =>
      unfold Equity.recordBuy
      rcases List.mem_cons.mp hmem with h1 | h1
      · rw [if_pos (by simp [h1])]
        constructor
        · simp
        · rw [Equity.sumPct_cons, Equity.sumPct_cons]
          show e.pct + pct + Equity.sumPct t = e.pct + Equity.sumPct t + pct
          ring
      · by_cases hcase : e.investor_id == buyer
        · rw [if_pos hcase]
          constructor
          · simp
          · rw [Equity.sumPct_cons, Equity.sumPct_cons]
            show e.pct + pct + Equity.sumPct t = e.pct + Equity.sumPct t + pct
            ring
        · rw [if_neg hcase]
          obtain ⟨ih1, ih2⟩ := ih h1
          constructor
          · rw [List.map_cons, List.map_cons, ih1]
          · rw [Equity.sumPct_cons, Equity.sumPct_cons, ih2]
            ring

/-- Witness for C2_theorem: a single 10% purchase from an empty record. -/
theorem C2_witness :
    (∀ op ∈ ([Equity.Op.buy "o" "b" 10 100] : List Equity.Op), Equity.ValidOp op) ∧
    (Equity.sumPct (Equity.runOps ⟨[], []⟩
        [Equity.Op.buy "o" "b" 10 100]).record ≤ 100 ∧
     (∀ (rec : List Equity.Entry) (buyer : String) (pct cost : ℚ),
       buyer ∈ rec.map (·.investor_id) →
       (Equity.recordBuy rec buyer pct cost).map (·.investor_id) =
         rec.map (·.investor_id) ∧
       Equity.sumPct (Equity.recordBuy rec buyer pct cost) =
         Equity.sumPct rec + pct)) := by
  have hv : ∀ op ∈ ([Equity.Op.buy "o" "b" 10 100] : List Equity.Op),
      Equity.ValidOp op := by
    intro op hop
    rw [List.mem_singleton] at hop
    rw [hop]
    exact ⟨by norm_num, by norm_num⟩
  exact ⟨hv, C2_theorem [] [Equity.Op.buy "o" "b" 10 100] hv⟩

theorem alookup_cons {κ α : Type} [BEq κ] (a : κ) (b : α) (t : List (κ × α)) (k : κ) :
    alookup ((a, b) :: t) k = if a == k then some b else alookup t k := by
  unfold alookup
  cases h : a == k <;> simp [List.find?_cons, h]

theorem alookup_aset_self {κ α : Type} [BEq κ] [LawfulBEq κ]
    (l : List (κ × α)) (k : κ) (v : α) :
    alookup (aset l k v) k = some v := by
  induction l with
  | nil => simp [aset, alookup_cons]
  | cons p t ih =>
    rcases p with ⟨a, b⟩
    by_cases h : (a == k) = true
    · simp [aset, h, alookup_cons]
    · simp [aset, h, alookup_cons, ih]

theorem alookup_aset_other {κ α : Type} [BEq κ] [LawfulBEq κ]
    (l : List (κ × α)) {k k' : κ} (h : k' ≠ k) (v : α) :
    alookup (aset l k v) k' = alookup l k' := by
  induction l with
  | nil =>
    simp [aset, alookup_cons, Ne.symm h]
  | cons p t ih =>
    rcases p with ⟨a, b⟩
    by_cases hak : (a == k) = true
    · have ha : a = k := by simpa using hak
      have hval : (a == k') = false := by
        simp [ha]
        exact Ne.symm h
      simp [aset, hak, alookup_cons, hval]
    · simp [aset, hak, alookup_cons, ih]

/-- C3 (confirmed): the buy-stake commit is all-or-nothing. When the
commit-time checks pass, the buyer's balance drops by the cost, the
owner's rises by the cost, and the equity record gains (or accumulates
into) the buyer's entry — all in the same write; when any commit-time
check fails (missing user record, over-allocation, insufficient funds),
nothing in the users or equity documents changes. (A self-trade cannot
reach the commit: the selection UI excludes the viewer's own businesses,
so the distinct-party hypothesis reflects every reachable commit.) -/
theorem C3_theorem (st : Equity.ExchangeState) (ownerId buyerId : String)
    (pct : ℚ) (cost : ℤ) (hob : ownerId ≠ buyerId) :
    (∀ ownerBal buyerBal : ℤ,
      alookup st.balances ownerId = some ownerBal →
      alookup st.balances buyerId = some buyerBal →
      Equity.sumPct st.record + pct ≤ 100 → cost ≤ buyerBal →
      alookup (Equity.buyCommit st ownerId buyerId pct cost).balances buyerId =
        some (buyerBal - cost) ∧
      alookup (Equity.buyCommit st ownerId buyerId pct cost).balances ownerId =
        some (ownerBal + cost) ∧
      (Equity.buyCommit st ownerId buyerId pct cost).record =
        Equity.recordBuy st.record buyerId pct cost) ∧
    ((alookup st.balances ownerId = none ∨ alookup st.balances buyerId = none ∨
      100 < Equity.sumPct st.record + pct ∨
      (∃ b : ℤ, alookup st.balances buyerId = some b ∧ b < cost)) →
      Equity.buyCommit st ownerId buyerId pct cost = st) := by
  constructor
  · intro ob bb h1 h2 h3 h4
    unfold Equity.buyCommit
    simp only [h1, h2]
    rw [if_neg (by push_neg; exact h3), if_neg (by omega)]
    have hb1 : alookup (aset st.balances buyerId (bb - cost)) ownerId = some ob := by
      rw [alookup_aset_other _ hob]
      exact h1
    simp only [hb1]
    refine ⟨?_, ?_, trivial⟩
    · rw [alookup_aset_other _ (Ne.symm hob)]
      exact alookup_aset_self _ _ _
    · exact alookup_aset_self _ _ _
  · intro hfail
    unfold Equity.buyCommit
    rcases ho : alookup st.balances ownerId with _ | ov
    · simp only [ho]
    · rcases hb : alookup st.balances buyerId with _ | bv
      · simp only [ho, hb]
      · simp only [ho, hb]
        rcases hfail with h | h | h | ⟨b2, hb2, hlt⟩
        · rw [ho] at h
          cases h
        · rw [hb] at h
          cases h
        · rw [if_pos h]
        · rw [hb2] at hb
          have hbv : b2 = bv := by
            injection hb
          split_ifs with h1 h2
          · rfl
          · rfl
          · omega

/-- Concrete trade state for the C3 witness. -/
def c3state : Equity.ExchangeState := ⟨[("o", 5), ("b", 100)], []⟩

/-- Witness for C3_theorem: buyer "b" buys 10% for 50 from owner "o". -/
theorem C3_witness :
    "o" ≠ "b" ∧
    alookup c3state.balances "o" = some 5 ∧
    alookup c3state.balances "b" = some 100 ∧
    Equity.sumPct c3state.record + 10 ≤ 100 ∧
    (50 : ℤ) ≤ 100 ∧
    (alookup (Equity.buyCommit c3state "o" "b" 10 50).balances "b" =
       some (100 - 50) ∧
     alookup (Equity.buyCommit c3state "o" "b" 10 50).balances "o" =
       some (5 + 50) ∧
     (Equity.buyCommit c3state "o" "b" 10 50).record =
       Equity.recordBuy c3state.record "b" 10 50) :=
  ⟨by decide, rfl, rfl, by norm_num [Equity.sumPct, c3state], by norm_num,
   (C3_theorem c3state "o" "b" 10 50 (by decide)).1 5 100 rfl rfl
     (by norm_num [Equity.sumPct, c3state]) (by norm_num)⟩

/-! ## Market upgrade purchase (src/commands/market.py, ApplyUpgradeView) -/

/-- The id under which a legacy `upgrades` element is recognised by the
double-apply check (`str(x.get('id'))` for dict entries, `str(x)` for
bare ids). -/
def refId : UpgradeRef → String
  | .entry i _ _ => i
  | .ref i => i

namespace Market

/-- The three documents an upgrade purchase touches. -/
structure State where
  users : Users
  market : List MarketUp
  purchases : Purchases
deriving DecidableEq, Repr

/-- `ApplyUpgradeView.apply_to_slot`: after the checks (user exists, not
the creator's own product, valid non-empty slot, sufficient funds, not
already applied) a successful purchase, in one write: bakes the boost into
the stored rate (`income_per_day = max(0, round(income × (1 + boost/100)))`),
appends the `{id, name, boost_pct}` entry to the slot's `upgrades` list
and to the purchased-upgrades ledger, debits the buyer by the price,
removes the listing from the market, and credits the seller's business
with one `products_sold` and the price in `pending_collect` (when the
seller business still exists). Any failed check changes nothing. -/
def apply_to_slot (st : State) (up : MarketUp) (userId : String) (slotIndex : ℤ) :
    State :=
  match alookup st.users userId with
  | none => st
  | some user =>
    if up.creator_id == userId then st
    else if slotIndex < 0 ∨ user.slots.length ≤ slotIndex.toNat then st
    else
      match user.slots.getD slotIndex.toNat none with
      | none => st
      | some slot =>
        if user.balance < up.price then st
        else if (slot.upgrades.map refId).contains up.id then st
        else
          let entry : PurchasedUp := ⟨up.id, up.name, up.boost_pct⟩
          let slot' := { slot with
            income_per_day :=
              max 0 (pyRound ((slot.income_per_day : ℚ) * (1 + up.boost_pct / 100))),
            upgrades := slot.upgrades ++ [.entry up.id up.name up.boost_pct] }
          let user' := { user with
            balance := user.balance - up.price,
            slots := user.slots.set slotIndex.toNat (some slot') }
          let users1 := aset st.users userId user'
          let urec := (alookup st.purchases userId).getD []
          let arr := (alookup urec slotIndex.toNat).getD []
          let purchases' :=
            aset st.purchases userId (aset urec slotIndex.toNat (arr ++ [entry]))
          let market' := st.market.filter (fun u => ¬ (u.id == up.id) = true)
          let users2 :=
            if 0 ≤ up.seller_slot_index then
              match alookup users1 up.creator_id with
              | none => users1
              | some seller =>
                if seller.slots.length ≤ up.seller_slot_index.toNat then users1
                else
                  match seller.slots.getD up.seller_slot_index.toNat none with
                  | none => users1
                  | some sslot =>
                    aset users1 up.creator_id { seller with
                      slots := seller.slots.set up.seller_slot_index.toNat
                        (some { sslot with
                          products_sold := sslot.products_sold + 1,
                          pending_collect := sslot.pending_collect + up.price }) }
            else users1
          { users := users2, market := market', purchases := purchases' }

end Market

theorem purchasesFor_eq (P : Purchases) (u : String) (i : ℕ) :
    purchasesFor P u i = (alookup ((alookup P u).getD []) i).getD [] := by
  unfold purchasesFor
  cases alookup P u with
  | none => rfl
  | some rec =>
    show (match alookup rec i with | none => [] | some l => l) =
      (alookup rec i).getD []
    cases alookup rec i <;> rfl

/-- C10 (confirmed): a successful upgrade purchase debits the buyer by the
price, delists the upgrade from the market, appends the
`{id, name, boost_pct}` entry both to the buyer slot's `upgrades` list and
to the purchased-upgrades ledger, overwrites the buyer slot's stored
`income_per_day` with `max(0, round(old income × (1 + boost_pct/100)))`
— the boost is baked into the stored rate in addition to the ledger entry
— and the seller's business gains the price in `pending_collect` and one
`products_sold`. -/
theorem C10_theorem (st : Market.State) (up : MarketUp) (userId : String)
    (slotIndex : ℤ) (user : Account) (slot : Slot) (seller : Account) (sslot : Slot)
    (h1 : alookup st.users userId = some user)
    (h2 : up.creator_id ≠ userId)
    (h3 : 0 ≤ slotIndex) (h4 : slotIndex.toNat < user.slots.length)
    (h5 : user.slots.getD slotIndex.toNat none = some slot)
    (h6 : up.price ≤ user.balance)
    (h7 : ((slot.upgrades.map refId).contains up.id) = false)
    (h8 : alookup st.users up.creator_id = some seller)
    (h9 : 0 ≤ up.seller_slot_index)
    (h10 : up.seller_slot_index.toNat < seller.slots.length)
    (h11 : seller.slots.getD up.seller_slot_index.toNat none = some sslot) :
    alookup (Market.apply_to_slot st up userId slotIndex).users userId =
      some { user with
        balance := user.balance - up.price,
        slots := user.slots.set slotIndex.toNat (some { slot with
          income_per_day :=
            max 0 (pyRound ((slot.income_per_day : ℚ) * (1 + up.boost_pct / 100))),
          upgrades := slot.upgrades ++ [.entry up.id up.name up.boost_pct] }) } ∧
    alookup (Market.apply_to_slot st up userId slotIndex).users up.creator_id =
      some { seller with
        slots := seller.slots.set up.seller_slot_index.toNat (some { sslot with
          products_sold := sslot.products_sold + 1,
          pending_collect := sslot.pending_collect + up.price }) } ∧
    (Market.apply_to_slot st up userId slotIndex).market =
      st.market.filter (fun u => ¬ (u.id == up.id) = true) ∧
    purchasesFor (Market.apply_to_slot st up userId slotIndex).purchases
        userId slotIndex.toNat =
      purchasesFor st.purchases userId slotIndex.toNat ++
        [⟨up.id, up.name, up.boost_pct⟩] := by
  have hcr : ¬ ((up.creator_id == userId) = true) := by
    simp only [beq_iff_eq]
    exact h2
  unfold Market.apply_to_slot
  simp only [h1]
  rw [if_neg hcr,
    if_neg (by push_neg; exact ⟨by omega, by omega⟩)]
  simp only [h5]
  rw [if_neg (by omega), if_neg (by rw [h7]; exact fun hc => nomatch hc)]
  have hsel : alookup (aset st.users userId { user with
      balance := user.balance - up.price,
      slots := user.slots.set slotIndex.toNat (some { slot with
        income_per_day :=
          max 0 (pyRound ((slot.income_per_day : ℚ) * (1 + up.boost_pct / 100))),
        upgrades := slot.upgrades ++ [.entry up.id up.name up.boost_pct] }) })
      up.creator_id = some seller := by
    rw [alookup_aset_other _ h2]
    exact h8
  rw [if_pos h9]
  simp only [hsel]
  rw [if_neg (by omega)]
  simp only [h11]
  refine ⟨?_, ?_, trivial, ?_⟩
  · rw [alookup_aset_other _ (Ne.symm h2)]
    exact alookup_aset_self _ _ _
  · exact alookup_aset_self _ _ _
  · rw [purchasesFor_eq, purchasesFor_eq, alookup_aset_self]
    show (alookup (aset ((alookup st.purchases userId).getD []) slotIndex.toNat
      (((alookup ((alookup st.purchases userId).getD []) slotIndex.toNat).getD []) ++
        [⟨up.id, up.name, up.boost_pct⟩])) slotIndex.toNat).getD [] = _
    rw [alookup_aset_self]
    rfl

/-- Buyer's business before the C10 witness purchase. -/
def c10buyerSlot : Slot := ⟨"b", 10, 10, 1, 0, 0, 0, 0, 0, 0, 0, []⟩

/-- Seller's business before the C10 witness purchase. -/
def c10sellerSlot : Slot := ⟨"s", 5, 5, 1, 0, 0, 0, 0, 0, 0, 0, []⟩

/-- The listed upgrade of the C10 witness: +10% boost, price 40. -/
def c10up : MarketUp := ⟨"1", "Up", "creator", 0, 10, 40⟩

/-- The three documents before the C10 witness purchase. -/
def c10state : Market.State :=
  ⟨[("buyer", ⟨100, [some c10buyerSlot], 0⟩),
    ("creator", ⟨0, [some c10sellerSlot], 0⟩)],
   [c10up], []⟩

/-- Witness for C10_theorem: "buyer" purchases the listed upgrade onto
their only business slot. -/
theorem C10_witness :
    alookup c10state.users "buyer" = some ⟨100, [some c10buyerSlot], 0⟩ ∧
    c10up.creator_id ≠ "buyer" ∧
    (0:ℤ) ≤ 0 ∧ (0:ℤ).toNat < ([some c10buyerSlot]).length ∧
    ([some c10buyerSlot]).getD (0:ℤ).toNat none = some c10buyerSlot ∧
    c10up.price ≤ (100:ℤ) ∧
    ((c10buyerSlot.upgrades.map refId).contains c10up.id) = false ∧
    alookup c10state.users c10up.creator_id = some ⟨0, [some c10sellerSlot], 0⟩ ∧
    (0:ℤ) ≤ c10up.seller_slot_index ∧
    c10up.seller_slot_index.toNat < ([some c10sellerSlot]).length ∧
    ([some c10sellerSlot]).getD c10up.seller_slot_index.toNat none =
      some c10sellerSlot ∧
    (alookup (Market.apply_to_slot c10state c10up "buyer" 0).users "buyer" =
      some { (⟨100, [some c10buyerSlot], 0⟩ : Account) with
        balance := 100 - c10up.price,
        slots := [some c10buyerSlot].set (0:ℤ).toNat (some { c10buyerSlot with
          income_per_day := max 0
            (pyRound ((c10buyerSlot.income_per_day : ℚ) * (1 + c10up.boost_pct / 100))),
          upgrades := c10buyerSlot.upgrades ++
            [.entry c10up.id c10up.name c10up.boost_pct] }) } ∧
    alookup (Market.apply_to_slot c10state c10up "buyer" 0).users c10up.creator_id =
      some { (⟨0, [some c10sellerSlot], 0⟩ : Account) with
        slots := [some c10sellerSlot].set c10up.seller_slot_index.toNat
          (some { c10sellerSlot with
            products_sold := c10sellerSlot.products_sold + 1,
            pending_collect := c10sellerSlot.pending_collect + c10up.price }) } ∧
    (Market.apply_to_slot c10state c10up "buyer" 0).market =
      c10state.market.filter (fun u => ¬ (u.id == c10up.id) = true) ∧
    purchasesFor (Market.apply_to_slot c10state c10up "buyer" 0).purchases
        "buyer" (0:ℤ).toNat =
      purchasesFor c10state.purchases "buyer" (0:ℤ).toNat ++
        [⟨c10up.id, c10up.name, c10up.boost_pct⟩]) :=
  ⟨rfl, by decide, by decide, by decide, rfl, by decide, rfl, rfl, by decide,
   by decide, rfl,
   C10_theorem c10state c10up "buyer" 0 ⟨100, [some c10buyerSlot], 0⟩ c10buyerSlot
     ⟨0, [some c10sellerSlot], 0⟩ c10sellerSlot rfl (by decide) (by decide)
     (by decide) rfl (by decide) rfl rfl (by decide) (by decide) rfl⟩
